import Mathlib

/-!
Verification development for the go-cartstack repository.

Two cores are embedded shallowly:

* the cart-queue state logic of `src/App.tsx` (stack registry, cross-stack
  moves, duration back-fill) and `src/components/CartStack.tsx` (per-stack
  playback transitions and reorders);
* the audio-buffer editor of `src/components/AudioEditor.tsx`
  (region extraction, ripple delete, WAV serialization).

JavaScript arrays of carts become `List CartItem`; the
`Record<string, CartItem[]>` stack registry becomes a total function
`String → List CartItem` (the source defaults a missing key to `[]`, so the
total-function view is exact).  Float samples, durations and region bounds
become `ℚ`; `Math.floor` becomes `Int.floor` on `ℚ`.
-/

namespace GoCart

/-- Playback status of a cart, from `src/types.ts`
(`'queued' | 'playing' | 'paused' | 'played'`). -/
inductive Status where
  | queued
  | playing
  | paused
  | played
deriving DecidableEq, Repr

/-- One loaded audio clip, from `CartItem` in `src/types.ts`.  The opaque
browser `File` object and its blob URL are represented by the strings
`file` and `url`; `duration` is seconds as `ℚ`. -/
structure CartItem where
  id : String
  file : String
  url : String
  title : String
  duration : ℚ
  status : Status
  addedAt : Nat
deriving DecidableEq, Repr

/-- The stack registry owned by `App.tsx`: `Record<string, CartItem[]>`,
read through `prev[stackId] ?? []`, so a total function with default `[]`. -/
abbrev StackState := String → List CartItem

/-- The `setStackCarts` updater of `src/App.tsx`: replace one stack's list.
(The source's `if (next === current) return prev` is a reference-equality
optimization with no observable effect.) -/
def setStackCarts (s : StackState) (stackId : String) (carts : List CartItem) :
    StackState :=
  fun k => if k = stackId then carts else s k

/-- The state update performed by `playCart` in `src/components/CartStack.tsx`
(lines 628-634): the cart with the given id becomes `playing`; any other cart
currently `playing` becomes `played`; everything else is untouched.  It is a
plain `map`, so positions are unchanged. -/
def playCartUpdate (carts : List CartItem) (cartId : String) : List CartItem :=
  carts.map fun c =>
    if c.id = cartId then { c with status := Status.playing }
    else if c.status = Status.playing then { c with status := Status.played }
    else c

/-- `playCart` as seen from the registry: the component's `setCarts` is bound
to its own stack, so activation rewrites exactly one stack's list. -/
def playCart (s : StackState) (stackId cartId : String) : StackState :=
  setStackCarts s stackId (playCartUpdate (s stackId) cartId)

/-- The state update of `stopCart` and of the `ended` listener in
`src/components/CartStack.tsx`: the first `playing` cart (if any) is marked
`played`, spliced out, and pushed to the tail. -/
def stopCartUpdate (carts : List CartItem) : List CartItem :=
  match carts.findIdx? (fun c => decide (c.status = Status.playing)) with
  | none => carts
  | some playingIndex =>
    match carts[playingIndex]? with
    | none => carts
    | some playingCart =>
      carts.eraseIdx playingIndex ++ [{ playingCart with status := Status.played }]

/-- Number of carts with `status = playing` summed over the given stack ids. -/
def playingCount (s : StackState) (stackIds : List String) : Nat :=
  (stackIds.map fun k =>
    (s k).countP fun c => decide (c.status = Status.playing)).sum

/-! Concrete carts used by counterexamples and witnesses. -/

/-- A cart that is currently playing, sitting at position 0 of its stack. -/
def cartA : CartItem :=
  { id := "a", file := "a.wav", url := "blob:a", title := "A",
    duration := 9, status := Status.playing, addedAt := 0 }

/-- A queued cart behind `cartA`. -/
def cartB : CartItem :=
  { id := "b", file := "b.wav", url := "blob:b", title := "B",
    duration := 7, status := Status.queued, addedAt := 1 }

/-- A registry with `cartA` playing in stack `"a"` and `cartB` queued in
stack `"b"`. -/
def stackAB : StackState :=
  fun k => if k = "a" then [cartA] else if k = "b" then [cartB] else []

/-- C1 counterexample: with `[cartA (playing), cartB (queued)]` in one stack,
activating `cartB` demotes `cartA` to `played` but leaves it at position 0;
the demoted cart is NOT relocated to the tail (the relocated outcome
`[cartB playing, cartA played]` does not occur), refuting the claimed
"demoted ... AND relocated to the tail ... exactly one relocation". -/
theorem playCart_no_tail_relocation_cex :
    playCartUpdate [cartA, cartB] "b" =
      [{ cartA with status := Status.played },
       { cartB with status := Status.playing }] ∧
    playCartUpdate [cartA, cartB] "b" ≠
      [{ cartB with status := Status.playing },
       { cartA with status := Status.played }] := by
  constructor
  · decide
  · decide

/-- C1 (amended): activating a cart via `playCart` marks the cart with the
given id as `playing` and demotes any other cart of the same stack that was
`playing` to `played`, leaving every cart's position (index and id) unchanged;
no relocation to the tail happens during activation (the sink-to-tail
relocation lives in `stopCart` / the `ended` handler instead). -/
theorem playCart_demotes_in_place (carts : List CartItem) (cartId : String) :
    (playCartUpdate carts cartId).length = carts.length ∧
    (∀ i : Nat, ((playCartUpdate carts cartId)[i]?).map CartItem.id =
      (carts[i]?).map CartItem.id) ∧
    (∀ i : Nat, ∀ c : CartItem, carts[i]? = some c →
      (playCartUpdate carts cartId)[i]? =
        some (if c.id = cartId then { c with status := Status.playing }
          else if c.status = Status.playing then { c with status := Status.played }
          else c)) := by
  refine ⟨List.length_map _ _, ?_, ?_⟩
  · intro i
    rw [playCartUpdate, List.getElem?_map]
    cases h : carts[i]? with
    | none => rfl
    | some c =>
      show Option.map _ (some _) = Option.map _ (some _)
      simp only [Option.map]
      refine congrArg some ?_
      show CartItem.id _ = CartItem.id c
      split
      · rfl
      · split <;> rfl
  · intro i c hc
    rw [playCartUpdate, List.getElem?_map, hc]
    rfl

/-- Closed witness for the amended C1 theorem at a concrete stack. -/
theorem playCart_demotes_in_place_witness :
    [cartA, cartB][0]? = some cartA ∧
    (playCartUpdate [cartA, cartB] "b")[0]? =
      some { cartA with status := Status.played } := by
  refine ⟨by decide, ?_⟩
  have h := (playCart_demotes_in_place [cartA, cartB] "b").2.2 0 cartA (by decide)
  simpa [cartA] using h

/-- C2 counterexample: starting from `stackAB` (exactly one playing cart,
`cartA` in stack `"a"`), activating `cartB` in stack `"b"` leaves TWO carts
with `status = playing` across the registry: `playCart` demotes only inside
its own stack, so the claimed global at-most-one-playing invariant is not
preserved by activation. -/
theorem playCart_global_invariant_cex :
    playingCount stackAB ["a", "b", "c"] = 1 ∧
    playingCount (playCart stackAB "b" "b") ["a", "b", "c"] = 2 := by
  constructor
  · decide
  · decide

/-- Helper: a stack whose cart ids are pairwise distinct has at most one cart
matching any given id. -/
theorem countP_id_le_one_of_nodup (l : List CartItem) (x : String)
    (hl : (l.map CartItem.id).Nodup) :
    l.countP (fun c => decide (c.id = x)) ≤ 1 := by
  induction l with
  | nil => simp [List.countP_nil]
  | cons a l ih =>
    rw [List.map_cons, List.nodup_cons] at hl
    rw [List.countP_cons]
    by_cases ha : a.id = x
    · have hzero : l.countP (fun c => decide (c.id = x)) = 0 := by
        rw [List.countP_eq_zero]
        intro b hb
        simp only [decide_eq_true_eq]
        intro hbx
        exact hl.1 (List.mem_map.mpr ⟨b, hb, by rw [hbx, ha]⟩)
      simp [ha, hzero]
    · simpa [ha] using ih hl.2

/-- C2 (amended): `playCart` enforces the playing bound only inside its own
stack: after activation the activated stack has at most one `playing` cart
(given distinct ids), and every other stack of the registry is untouched —
so a `playing` cart in another stack stays `playing` and the global bound can
be violated. -/
theorem playCart_per_stack_playing_bound (s : StackState)
    (stackId cartId : String)
    (hnodup : ((s stackId).map CartItem.id).Nodup) :
    ((playCart s stackId cartId) stackId).countP
      (fun c => decide (c.status = Status.playing)) ≤ 1 ∧
    ∀ k : String, k ≠ stackId → (playCart s stackId cartId) k = s k := by
  constructor
  · have hs : (playCart s stackId cartId) stackId =
        playCartUpdate (s stackId) cartId := by
      simp [playCart, setStackCarts]
    rw [hs, playCartUpdate, List.countP_map]
    have heq : ∀ c ∈ s stackId,
        (((fun c => decide (c.status = Status.playing)) ∘ fun c =>
          if c.id = cartId then { c with status := Status.playing }
          else if c.status = Status.playing then { c with status := Status.played }
          else c) c = true ↔ (fun c => decide (c.id = cartId)) c = true) := by
      intro c _
      by_cases h1 : c.id = cartId
      · simp [h1]
      · by_cases h2 : c.status = Status.playing <;> simp [h1, h2]
    rw [List.countP_congr heq]
    exact countP_id_le_one_of_nodup (s stackId) cartId hnodup
  · intro k hk
    simp [playCart, setStackCarts, hk]

/-- Closed witness for the amended C2 theorem on the concrete registry. -/
theorem playCart_per_stack_playing_bound_witness :
    ((playCart stackAB "b" "b") "b").countP
      (fun c => decide (c.status = Status.playing)) ≤ 1 ∧
    (playCart stackAB "b" "b") "a" = stackAB "a" := by
  have h := playCart_per_stack_playing_bound stackAB "b" "b" (by decide)
  exact ⟨h.1, h.2 "a" (by decide)⟩

/-! Cross-stack and within-stack moves. -/

/-- Insertion index used by both move operations: index of the cart with the
target id, or the tail when the target is `null`/absent
(`let insertIndex = targetId ? nextTo.findIndex(...) : nextTo.length;
if (insertIndex === -1) insertIndex = nextTo.length;`). -/
def insertIndexFor (next : List CartItem) (toId : Option String) : Nat :=
  match toId with
  | none => next.length
  | some t =>
    match next.findIdx? (fun c => decide (c.id = t)) with
    | none => next.length
    | some i => i

/-- `moveCartWithinStack` from `src/components/CartStack.tsx` (lines 677-697):
no-op when source and target ids coincide or the source id is absent;
otherwise splice the cart out, compute the insertion index, auto-requeue a
`played` cart that lands at position 0, and splice it back in. -/
def moveCartWithinStack (carts : List CartItem) (fromId : String)
    (toId : Option String) : List CartItem :=
  if toId = some fromId then carts
  else
    match carts.findIdx? (fun c => decide (c.id = fromId)) with
    | none => carts
    | some fromIndex =>
      match carts[fromIndex]? with
      | none => carts
      | some moved =>
        let next := carts.eraseIdx fromIndex
        let insertIndex := insertIndexFor next toId
        let cartToInsert :=
          if insertIndex = 0 ∧ moved.status = Status.played then
            { moved with status := Status.queued }
          else moved
        next.take insertIndex ++ cartToInsert :: next.drop insertIndex

/-- `moveCartAcrossStacks` from `src/App.tsx` (lines 72-111): no-op when the
stacks coincide or the cart is not in the source stack; otherwise remove it
from the source stack and insert it into the destination stack before
`targetId` (tail when `targetId` is `null` or absent), auto-requeuing a
`played` cart inserted at position 0. -/
def moveCartAcrossStacks (s : StackState) (fromStackId toStackId cartId : String)
    (targetId : Option String) : StackState :=
  if fromStackId = toStackId then s
  else
    let fromCarts := s fromStackId
    let toCarts := s toStackId
    match fromCarts.findIdx? (fun c => decide (c.id = cartId)) with
    | none => s
    | some fromIndex =>
      match fromCarts[fromIndex]? with
      | none => s
      | some movedCart =>
        let nextFrom := fromCarts.eraseIdx fromIndex
        let insertIndex := insertIndexFor toCarts targetId
        let cartToInsert :=
          if insertIndex = 0 ∧ movedCart.status = Status.played then
            { movedCart with status := Status.queued }
          else movedCart
        let nextTo := toCarts.take insertIndex ++ cartToInsert :: toCarts.drop insertIndex
        fun k => if k = fromStackId then nextFrom else if k = toStackId then nextTo else s k

/-! Helper lemmas about found indices, splices and erasures. -/

/-- A `findIdx?` hit is in bounds and points at an element matching the
predicate. -/
theorem findIdx?_some_spec {α : Type} (p : α → Bool) (l : List α) (i : Nat)
    (h : l.findIdx? p = some i) :
    i < l.length ∧ ∀ x, l[i]? = some x → p x = true := by
  obtain ⟨hlt, hidx⟩ := List.findIdx?_eq_some_iff_findIdx_eq.mp h
  refine ⟨hlt, ?_⟩
  intro x hx
  obtain ⟨hx1, hx2⟩ := List.getElem?_eq_some.mp hx
  subst hx2
  have w : l.findIdx p < l.length := by rw [hidx]; exact hlt
  have hto := @List.findIdx_getElem _ p l w
  simpa [hidx] using hto

/-- The element spliced in at index `k` is read back at index `k`. -/
theorem getElem?_splice {α : Type} (l : List α) (x : α) (k : Nat)
    (h : k ≤ l.length) :
    (l.take k ++ x :: l.drop k)[k]? = some x := by
  have hk : (l.take k).length = k := by rw [List.length_take]; omega
  rw [List.getElem?_append_right (le_of_eq hk), hk]
  simp

/-- Counting after a splice adds the spliced element's contribution. -/
theorem countP_splice {α : Type} (p : α → Bool) (l : List α) (x : α) (k : Nat) :
    (l.take k ++ x :: l.drop k).countP p =
      l.countP p + if p x then 1 else 0 := by
  rw [List.countP_append, List.countP_cons]
  have hsplit := congrArg (List.countP p) (List.take_append_drop k l)
  rw [List.countP_append] at hsplit
  omega

/-- Erasing an index holding a matching element lowers the count by one. -/
theorem countP_eraseIdx_found {α : Type} (p : α → Bool) (l : List α) (i : Nat)
    (x : α) (hi : l[i]? = some x) (hx : p x = true) :
    (l.eraseIdx i).countP p + 1 = l.countP p := by
  obtain ⟨hlt, hel⟩ := List.getElem?_eq_some.mp hi
  rw [List.eraseIdx_eq_take_drop_succ, List.countP_append]
  have hsplit := congrArg (List.countP p) (List.take_append_drop i l)
  rw [List.countP_append, List.drop_eq_getElem_cons hlt, List.countP_cons, hel, hx]
    at hsplit
  simp only [if_true] at hsplit
  omega

/-- The computed insertion index never exceeds the list length. -/
theorem insertIndexFor_le_length (next : List CartItem) (toId : Option String) :
    insertIndexFor next toId ≤ next.length := by
  cases toId with
  | none => simp [insertIndexFor]
  | some t =>
    simp only [insertIndexFor]
    cases h : next.findIdx? (fun c => decide (c.id = t)) with
    | none => exact Nat.le_refl _
    | some i => exact le_of_lt (findIdx?_some_spec _ _ _ h).1

/-- C7: for both the within-stack reorder and the cross-stack insert, a cart
landing at position 0 whose prior status was `played` is re-set to `queued`
as part of the same move, and a cart landing at any position > 0 is inserted
entirely unchanged (status included). -/
theorem move_auto_requeue
    (carts : List CartItem) (fromId : String) (toId : Option String)
    (fromIndex : Nat) (moved : CartItem)
    (hne : toId ≠ some fromId)
    (hfind : carts.findIdx? (fun c => decide (c.id = fromId)) = some fromIndex)
    (hget : carts[fromIndex]? = some moved)
    (s : StackState) (fromStackId toStackId cartId : String)
    (targetId : Option String) (fromIndex2 : Nat) (movedCart : CartItem)
    (hstacks : fromStackId ≠ toStackId)
    (hfind2 : (s fromStackId).findIdx? (fun c => decide (c.id = cartId)) = some fromIndex2)
    (hget2 : (s fromStackId)[fromIndex2]? = some movedCart) :
    ((insertIndexFor (carts.eraseIdx fromIndex) toId = 0 →
        moved.status = Status.played →
        (moveCartWithinStack carts fromId toId)[0]? =
          some { moved with status := Status.queued }) ∧
      (0 < insertIndexFor (carts.eraseIdx fromIndex) toId →
        (moveCartWithinStack carts fromId toId)[insertIndexFor
          (carts.eraseIdx fromIndex) toId]? = some moved)) ∧
    ((insertIndexFor (s toStackId) targetId = 0 →
        movedCart.status = Status.played →
        ((moveCartAcrossStacks s fromStackId toStackId cartId targetId)
          toStackId)[0]? = some { movedCart with status := Status.queued }) ∧
      (0 < insertIndexFor (s toStackId) targetId →
        ((moveCartAcrossStacks s fromStackId toStackId cartId targetId)
          toStackId)[insertIndexFor (s toStackId) targetId]? = some movedCart)) := by
  have hwithin : moveCartWithinStack carts fromId toId =
      (carts.eraseIdx fromIndex).take (insertIndexFor (carts.eraseIdx fromIndex) toId) ++
        (if insertIndexFor (carts.eraseIdx fromIndex) toId = 0 ∧
            moved.status = Status.played then
          { moved with status := Status.queued } else moved) ::
        (carts.eraseIdx fromIndex).drop (insertIndexFor (carts.eraseIdx fromIndex) toId) := by
    simp only [moveCartWithinStack, if_neg hne, hfind, hget]
  have hacross : (moveCartAcrossStacks s fromStackId toStackId cartId targetId)
      toStackId =
      (s toStackId).take (insertIndexFor (s toStackId) targetId) ++
        (if insertIndexFor (s toStackId) targetId = 0 ∧
            movedCart.status = Status.played then
          { movedCart with status := Status.queued } else movedCart) ::
        (s toStackId).drop (insertIndexFor (s toStackId) targetId) := by
    simp only [moveCartAcrossStacks, if_neg hstacks, hfind2, hget2]
    simp [Ne.symm hstacks]
  refine ⟨⟨?_, ?_⟩, ?_, ?_⟩
  · intro hk hst
    rw [hwithin, if_pos ⟨hk, hst⟩, hk]
    simp
  · intro hk
    have hkne : ¬(insertIndexFor (carts.eraseIdx fromIndex) toId = 0 ∧
        moved.status = Status.played) := by
      rintro ⟨h0, -⟩
      omega
    rw [hwithin, if_neg hkne]
    exact getElem?_splice _ _ _ (insertIndexFor_le_length _ _)
  · intro hk hst
    rw [hacross, if_pos ⟨hk, hst⟩, hk]
    simp
  · intro hk
    have hkne : ¬(insertIndexFor (s toStackId) targetId = 0 ∧
        movedCart.status = Status.played) := by
      rintro ⟨h0, -⟩
      omega
    rw [hacross, if_neg hkne]
    exact getElem?_splice _ _ _ (insertIndexFor_le_length _ _)

/-- A cart that has already been played, used to exercise auto-requeue. -/
def cartP : CartItem :=
  { id := "p", file := "p.wav", url := "blob:p", title := "P",
    duration := 4, status := Status.played, addedAt := 2 }

/-- A queued cart used as the insertion target of the moves. -/
def cartQ : CartItem :=
  { id := "q", file := "q.wav", url := "blob:q", title := "Q",
    duration := 6, status := Status.queued, addedAt := 3 }

/-- A registry with the played cart `cartP` alone in stack `"x"` and the
queued cart `cartQ` alone in stack `"y"`. -/
def stackXY : StackState :=
  fun k => if k = "x" then [cartP] else if k = "y" then [cartQ] else []

/-- Closed witness for C7: reordering the played `cartP` before `cartQ`
(position 0) requeues it, both within one stack and across two stacks. -/
theorem move_auto_requeue_witness :
    (moveCartWithinStack [cartQ, cartP] "p" (some "q"))[0]? =
      some { cartP with status := Status.queued } ∧
    ((moveCartAcrossStacks stackXY "x" "y" "p" (some "q")) "y")[0]? =
      some { cartP with status := Status.queued } := by
  have h := move_auto_requeue [cartQ, cartP] "p" (some "q") 1 cartP
    (by decide) (by decide) (by decide)
    stackXY "x" "y" "p" (some "q") 0 cartP
    (by decide) (by decide) (by decide)
  exact ⟨h.1.1 (by decide) (by decide), h.2.1 (by decide) (by decide)⟩

/-- C8: `moveCartAcrossStacks` returns the state unchanged when the two
stacks coincide, and when the cart id is not found in the source stack;
otherwise the cart is spliced out of the source stack and spliced into the
destination stack at the computed insertion index (before `targetId`, tail
when `targetId` is `null` or absent), all other stacks are untouched, and —
when the id occurs exactly once in the source stack and not at all in the
destination — the id ends up in exactly one stack of the resulting state. -/
theorem moveAcross_spec (s : StackState) (fromStackId toStackId cartId : String)
    (targetId : Option String) :
    (fromStackId = toStackId →
      moveCartAcrossStacks s fromStackId toStackId cartId targetId = s) ∧
    ((s fromStackId).findIdx? (fun c => decide (c.id = cartId)) = none →
      moveCartAcrossStacks s fromStackId toStackId cartId targetId = s) ∧
    (∀ fromIndex : Nat, ∀ movedCart : CartItem,
      fromStackId ≠ toStackId →
      (s fromStackId).findIdx? (fun c => decide (c.id = cartId)) = some fromIndex →
      (s fromStackId)[fromIndex]? = some movedCart →
      (moveCartAcrossStacks s fromStackId toStackId cartId targetId) fromStackId =
        (s fromStackId).eraseIdx fromIndex ∧
      (∃ inserted : CartItem, inserted.id = movedCart.id ∧
        inserted.duration = movedCart.duration ∧
        inserted.title = movedCart.title ∧
        inserted.file = movedCart.file ∧
        (moveCartAcrossStacks s fromStackId toStackId cartId targetId) toStackId =
          (s toStackId).take (insertIndexFor (s toStackId) targetId) ++
            inserted :: (s toStackId).drop (insertIndexFor (s toStackId) targetId)) ∧
      (∀ k : String, k ≠ fromStackId → k ≠ toStackId →
        (moveCartAcrossStacks s fromStackId toStackId cartId targetId) k = s k) ∧
      ((s fromStackId).countP (fun c => decide (c.id = cartId)) = 1 →
        ((moveCartAcrossStacks s fromStackId toStackId cartId targetId)
          fromStackId).countP (fun c => decide (c.id = cartId)) = 0) ∧
      ((s toStackId).countP (fun c => decide (c.id = cartId)) = 0 →
        ((moveCartAcrossStacks s fromStackId toStackId cartId targetId)
          toStackId).countP (fun c => decide (c.id = cartId)) = 1)) := by
  refine ⟨?_, ?_, ?_⟩
  · intro h
    simp [moveCartAcrossStacks, h]
  · intro h
    by_cases hsame : fromStackId = toStackId
    · simp [moveCartAcrossStacks, hsame]
    · simp [moveCartAcrossStacks, hsame, h]
  · intro fromIndex movedCart hstacks hfind hget
    have hmatch : ∀ k : String,
        (moveCartAcrossStacks s fromStackId toStackId cartId targetId) k =
        if k = fromStackId then (s fromStackId).eraseIdx fromIndex
        else if k = toStackId then
          (s toStackId).take (insertIndexFor (s toStackId) targetId) ++
            (if insertIndexFor (s toStackId) targetId = 0 ∧
                movedCart.status = Status.played then
              { movedCart with status := Status.queued }
            else movedCart) ::
            (s toStackId).drop (insertIndexFor (s toStackId) targetId)
        else s k := by
      intro k
      simp only [moveCartAcrossStacks, if_neg hstacks, hfind, hget]
    have hmoved_id : movedCart.id = cartId := by
      have := (findIdx?_some_spec _ _ _ hfind).2 movedCart hget
      simpa using this
    have hinserted_id :
        (if insertIndexFor (s toStackId) targetId = 0 ∧
            movedCart.status = Status.played then
          { movedCart with status := Status.queued }
        else movedCart).id = movedCart.id := by
      split <;> rfl
    refine ⟨?_, ?_, ?_, ?_, ?_⟩
    · rw [hmatch fromStackId, if_pos rfl]
    · refine ⟨_, hinserted_id, ?_, ?_, ?_, ?_⟩
      · split <;> rfl
      · split <;> rfl
      · split <;> rfl
      · rw [hmatch toStackId, if_neg (Ne.symm hstacks), if_pos rfl]
    · intro k hk1 hk2
      rw [hmatch k, if_neg hk1, if_neg hk2]
    · intro hone
      rw [hmatch fromStackId, if_pos rfl]
      have := countP_eraseIdx_found (fun c => decide (c.id = cartId))
        (s fromStackId) fromIndex movedCart hget (by simpa using hmoved_id)
      omega
    · intro hzero
      rw [hmatch toStackId, if_neg (Ne.symm hstacks), if_pos rfl]
      rw [countP_splice, hzero]
      simp [hinserted_id.trans hmoved_id]

/-- Closed witness for C8 on the concrete registry `stackXY`: moving `cartP`
from stack `"x"` to the tail of stack `"y"`. -/
theorem moveAcross_spec_witness :
    ((moveCartAcrossStacks stackXY "x" "y" "p" none) "x").countP
      (fun c => decide (c.id = "p")) = 0 ∧
    ((moveCartAcrossStacks stackXY "x" "y" "p" none) "y").countP
      (fun c => decide (c.id = "p")) = 1 ∧
    (moveCartAcrossStacks stackXY "x" "y" "p" none) "z" = stackXY "z" := by
  have h := (moveAcross_spec stackXY "x" "y" "p" none).2.2 0 cartP
    (by decide) (by decide) (by decide)
  exact ⟨h.2.2.2.1 (by decide), h.2.2.2.2 (by decide), h.2.2.1 "z" (by decide) (by decide)⟩

/-! Asynchronous duration back-fill. -/

/-- The state update fired by the `onloadedmetadata` probe callback inside
`addFilesToStack` (`src/App.tsx` lines 54-67): in the stack the cart was
added to, the cart whose id matches gets its `duration` replaced; everything
else is untouched. -/
def probeUpdate (s : StackState) (stackId cartId : String) (d : ℚ) : StackState :=
  fun k =>
    if k = stackId then
      (s stackId).map fun c => if c.id = cartId then { c with duration := d } else c
    else s k

/-- Helper: the probe map is the identity when no cart in the list bears the
probed id. -/
theorem map_probe_id (l : List CartItem) (cartId : String) (d : ℚ)
    (h : cartId ∉ l.map CartItem.id) :
    (l.map fun c => if c.id = cartId then { c with duration := d } else c) = l := by
  induction l with
  | nil => rfl
  | cons a l ih =>
    simp only [List.map_cons, List.mem_cons] at h
    push_neg at h
    simp only [List.map_cons]
    rw [if_neg fun hc => h.1 hc.symm, ih h.2]

/-- C9: a duration-probe completion updates only the `duration` of the cart
whose id matches, in the stack the probe was registered on: lengths, ids,
statuses and titles at every position are unchanged, other stacks are
untouched, and if the probed id no longer occurs in that stack the whole
state is unchanged (the cart is never resurrected). -/
theorem probe_updates_only_duration (s : StackState) (stackId cartId : String)
    (d : ℚ) :
    ((probeUpdate s stackId cartId d) stackId).length = (s stackId).length ∧
    (∀ i : Nat, ∀ c : CartItem, (s stackId)[i]? = some c →
      ((probeUpdate s stackId cartId d) stackId)[i]? =
        some (if c.id = cartId then { c with duration := d } else c)) ∧
    (∀ i : Nat, ∀ c : CartItem, (s stackId)[i]? = some c →
      (((probeUpdate s stackId cartId d) stackId)[i]?).map CartItem.status =
        some c.status ∧
      (((probeUpdate s stackId cartId d) stackId)[i]?).map CartItem.id =
        some c.id ∧
      (((probeUpdate s stackId cartId d) stackId)[i]?).map CartItem.title =
        some c.title) ∧
    (∀ k : String, k ≠ stackId → (probeUpdate s stackId cartId d) k = s k) ∧
    (cartId ∉ (s stackId).map CartItem.id → probeUpdate s stackId cartId d = s) := by
  have hstack : (probeUpdate s stackId cartId d) stackId =
      (s stackId).map fun c =>
        if c.id = cartId then { c with duration := d } else c := by
    simp [probeUpdate]
  refine ⟨?_, ?_, ?_, ?_, ?_⟩
  · rw [hstack]
    exact List.length_map _ _
  · intro i c hc
    rw [hstack, List.getElem?_map, hc]
    rfl
  · intro i c hc
    rw [hstack, List.getElem?_map, hc]
    refine ⟨?_, ?_, ?_⟩ <;>
      · show Option.map _ (some _) = some _
        simp only [Option.map]
        refine congrArg some ?_
        split <;> rfl
  · intro k hk
    simp [probeUpdate, hk]
  · intro habs
    funext k
    by_cases hk : k = stackId
    · subst hk
      rw [hstack, map_probe_id _ _ _ habs]
    · simp [probeUpdate, hk]

/-- Closed witness for C9: probing `cartQ`'s duration in stack `"y"`, and a
probe for an id that is gone leaving the state unchanged. -/
theorem probe_updates_only_duration_witness :
    ((probeUpdate stackXY "y" "q" 12) "y")[0]? =
      some { cartQ with duration := 12 } ∧
    probeUpdate stackXY "y" "gone" 12 = stackXY := by
  have h1 := (probe_updates_only_duration stackXY "y" "q" 12).2.1 0 cartQ (by decide)
  have h2 := (probe_updates_only_duration stackXY "y" "gone" 12).2.2.2.2 (by decide)
  refine ⟨?_, h2⟩
  rw [h1]
  rfl

/-- Helper: the full shape of a successful cross-stack move, for reuse. -/
theorem moveAcross_eq_splice (s : StackState)
    (fromStackId toStackId cartId : String) (targetId : Option String)
    (fromIndex : Nat) (movedCart : CartItem)
    (hstacks : fromStackId ≠ toStackId)
    (hfind : (s fromStackId).findIdx? (fun c => decide (c.id = cartId)) =
      some fromIndex)
    (hget : (s fromStackId)[fromIndex]? = some movedCart) :
    ∀ k : String,
      (moveCartAcrossStacks s fromStackId toStackId cartId targetId) k =
      if k = fromStackId then (s fromStackId).eraseIdx fromIndex
      else if k = toStackId then
        (s toStackId).take (insertIndexFor (s toStackId) targetId) ++
          (if insertIndexFor (s toStackId) targetId = 0 ∧
              movedCart.status = Status.played then
            { movedCart with status := Status.queued }
          else movedCart) ::
          (s toStackId).drop (insertIndexFor (s toStackId) targetId)
      else s k := by
  intro k
  simp only [moveCartAcrossStacks, if_neg hstacks, hfind, hget]

/-- C10: the probe callback registered by `addFilesToStack` searches only the
stack the cart was originally added to; if the cart has been moved to another
stack before the probe resolves, the callback leaves the state unchanged and
the moved cart's duration stays `0` even though the cart still exists. -/
theorem probe_misses_moved_cart (s : StackState)
    (fromStackId toStackId cartId : String) (targetId : Option String)
    (fromIndex : Nat) (movedCart : CartItem) (d : ℚ)
    (hstacks : fromStackId ≠ toStackId)
    (hfind : (s fromStackId).findIdx? (fun c => decide (c.id = cartId)) =
      some fromIndex)
    (hget : (s fromStackId)[fromIndex]? = some movedCart)
    (hone : (s fromStackId).countP (fun c => decide (c.id = cartId)) = 1)
    (habs : cartId ∉ (s toStackId).map CartItem.id)
    (hdur : movedCart.duration = 0) :
    probeUpdate (moveCartAcrossStacks s fromStackId toStackId cartId targetId)
        fromStackId cartId d =
      moveCartAcrossStacks s fromStackId toStackId cartId targetId ∧
    (∃ c : CartItem,
      c ∈ (moveCartAcrossStacks s fromStackId toStackId cartId targetId)
        toStackId ∧ c.id = cartId ∧ c.duration = 0) ∧
    (∀ c : CartItem,
      c ∈ (moveCartAcrossStacks s fromStackId toStackId cartId targetId)
        toStackId → c.id = cartId → c.duration = 0) := by
  have hsplice := moveAcross_eq_splice s fromStackId toStackId cartId targetId
    fromIndex movedCart hstacks hfind hget
  have hmoved_id : movedCart.id = cartId := by
    have := (findIdx?_some_spec _ _ _ hfind).2 movedCart hget
    simpa using this
  have hfrom : (moveCartAcrossStacks s fromStackId toStackId cartId targetId)
      fromStackId = (s fromStackId).eraseIdx fromIndex := by
    rw [hsplice fromStackId, if_pos rfl]
  have hto : (moveCartAcrossStacks s fromStackId toStackId cartId targetId)
      toStackId =
      (s toStackId).take (insertIndexFor (s toStackId) targetId) ++
        (if insertIndexFor (s toStackId) targetId = 0 ∧
            movedCart.status = Status.played then
          { movedCart with status := Status.queued }
        else movedCart) ::
        (s toStackId).drop (insertIndexFor (s toStackId) targetId) := by
    rw [hsplice toStackId, if_neg (Ne.symm hstacks), if_pos rfl]
  have herased : cartId ∉
      ((s fromStackId).eraseIdx fromIndex).map CartItem.id := by
    have hcount := countP_eraseIdx_found (fun c => decide (c.id = cartId))
      (s fromStackId) fromIndex movedCart hget (by simpa using hmoved_id)
    have hzero : ((s fromStackId).eraseIdx fromIndex).countP
        (fun c => decide (c.id = cartId)) = 0 := by omega
    rw [List.countP_eq_zero] at hzero
    intro hmem
    obtain ⟨c, hcmem, hcid⟩ := List.mem_map.mp hmem
    exact hzero c hcmem (by simpa using hcid)
  have hins_id : (if insertIndexFor (s toStackId) targetId = 0 ∧
      movedCart.status = Status.played then
        { movedCart with status := Status.queued }
      else movedCart).id = cartId := by
    have h1 : (if insertIndexFor (s toStackId) targetId = 0 ∧
        movedCart.status = Status.played then
          { movedCart with status := Status.queued }
        else movedCart).id = movedCart.id := by
      split <;> rfl
    exact h1.trans hmoved_id
  have hins_dur : (if insertIndexFor (s toStackId) targetId = 0 ∧
      movedCart.status = Status.played then
        { movedCart with status := Status.queued }
      else movedCart).duration = 0 := by
    have h1 : (if insertIndexFor (s toStackId) targetId = 0 ∧
        movedCart.status = Status.played then
          { movedCart with status := Status.queued }
        else movedCart).duration = movedCart.duration := by
      split <;> rfl
    exact h1.trans hdur
  refine ⟨?_, ?_, ?_⟩
  · funext k
    simp only [probeUpdate]
    by_cases hk : k = fromStackId
    · rw [if_pos hk, hfrom, map_probe_id _ _ _ herased, ← hfrom, hk]
    · rw [if_neg hk]
  · refine ⟨_, ?_, hins_id, hins_dur⟩
    rw [hto]
    exact List.mem_append.mpr (Or.inr (List.mem_cons_self _ _))
  · intro c hc hcid
    rw [hto] at hc
    rcases List.mem_append.mp hc with htake | hrest
    · exact absurd (List.mem_map.mpr ⟨c, List.mem_of_mem_take htake, hcid⟩) habs
    · rcases List.mem_cons.mp hrest with heq | hdrop
      · rw [heq]
        exact hins_dur
      · exact absurd (List.mem_map.mpr ⟨c, List.mem_of_mem_drop hdrop, hcid⟩) habs

/-- A freshly added cart: duration still `0`, waiting for its probe. -/
def cartN : CartItem :=
  { id := "n", file := "n.wav", url := "blob:n", title := "N",
    duration := 0, status := Status.queued, addedAt := 4 }

/-- A registry with the fresh cart `cartN` in stack `"x"` and `cartQ` in
stack `"y"`. -/
def stackN : StackState :=
  fun k => if k = "x" then [cartN] else if k = "y" then [cartQ] else []

/-- Closed witness for C10: `cartN` is moved from `"x"` to `"y"` before its
probe fires; the probe (still keyed to `"x"`) changes nothing and the moved
cart keeps duration `0`. -/
theorem probe_misses_moved_cart_witness :
    probeUpdate (moveCartAcrossStacks stackN "x" "y" "n" none) "x" "n" 12 =
      moveCartAcrossStacks stackN "x" "y" "n" none ∧
    ∀ c : CartItem, c ∈ (moveCartAcrossStacks stackN "x" "y" "n" none) "y" →
      c.id = "n" → c.duration = 0 := by
  have h := probe_misses_moved_cart stackN "x" "y" "n" none 0 cartN 12
    (by decide) (by decide) (by decide) (by decide) (by decide) (by decide)
  exact ⟨h.1, h.2.2⟩

/-! The audio buffer editor (`src/components/AudioEditor.tsx`). -/

/-- A decoded multichannel audio buffer (`AudioBuffer`): sample rate, frame
count (`AudioBuffer.length`) and one sample list per channel.  Float samples
are embedded as `ℚ`. -/
structure DecodedBuffer where
  sampleRate : Nat
  length : Nat
  channels : List (List ℚ)
deriving DecidableEq, Repr

/-- Well-formedness from §3: every channel holds exactly `length` frames
(guaranteed by `AudioContext.createBuffer` / `getChannelData`). -/
def DecodedBuffer.WF (b : DecodedBuffer) : Prop :=
  ∀ ch ∈ b.channels, ch.length = b.length

/-- A user-selected region in seconds, from `EditorSelection` in
`src/types.ts`. -/
structure Region where
  start : ℚ
  «end» : ℚ
deriving DecidableEq, Repr

/-- `Math.floor(region.start * decodedBuffer.sampleRate)`. -/
def startSampleOf (buf : DecodedBuffer) (r : Region) : Int :=
  ⌊r.start * (buf.sampleRate : ℚ)⌋

/-- `Math.floor(region.end * decodedBuffer.sampleRate)`. -/
def endSampleOf (buf : DecodedBuffer) (r : Region) : Int :=
  ⌊r.«end» * (buf.sampleRate : ℚ)⌋

/-- The buffer-extraction core of `exportSelectionBlob`
(`src/components/AudioEditor.tsx` lines 251-273): convert the region to
frame indices, return `null` when the length is ≤ 0, otherwise copy
`length` samples starting at `startSample` from every channel into a fresh
buffer with the same channel count and sample rate. -/
def extractRegion (buf : DecodedBuffer) (r : Region) : Option DecodedBuffer :=
  let startSample := startSampleOf buf r
  let endSample := endSampleOf buf r
  let length := endSample - startSample
  if length ≤ 0 then none
  else some
    { sampleRate := buf.sampleRate
      length := length.toNat
      channels := buf.channels.map fun ch =>
        (List.range length.toNat).map fun j => ch.getD (startSample.toNat + j) 0 }

/-- Outcome of `rippleDeleteSelection`: early return (no cut), the
fully-cleared editor (`wavesurfer.empty()`), or a freshly built buffer. -/
inductive RippleResult where
  | noop
  | cleared
  | edited (buf : DecodedBuffer)
deriving DecidableEq, Repr

/-- The buffer transformation of `rippleDeleteSelection`
(`src/components/AudioEditor.tsx` lines 276-317): no-op when
`cutLength ≤ 0`; clear everything when `cutLength ≥ decodedBuffer.length`;
otherwise each channel keeps `[0, startSample)` followed by
`[endSample, frameCount)` (`set(subarray(0, startSample), 0);
set(subarray(endSample), startSample)`). -/
def rippleDeleteSelection (buf : DecodedBuffer) (r : Region) : RippleResult :=
  let startSample := startSampleOf buf r
  let endSample := endSampleOf buf r
  let cutLength := endSample - startSample
  if cutLength ≤ 0 then RippleResult.noop
  else if (buf.length : Int) ≤ cutLength then RippleResult.cleared
  else RippleResult.edited
    { sampleRate := buf.sampleRate
      length := buf.length - cutLength.toNat
      channels := buf.channels.map fun ch =>
        ch.take startSample.toNat ++ ch.drop endSample.toNat }

/-- Helper: reading `n` consecutive in-bounds samples via `getD` is the
`drop`/`take` slice. -/
theorem range_map_getD_eq (ch : List ℚ) (a n : Nat) (h : a + n ≤ ch.length) :
    ((List.range n).map fun j => ch.getD (a + j) 0) = (ch.drop a).take n := by
  apply List.ext_getElem
  · rw [List.length_map, List.length_range, List.length_take, List.length_drop]
    omega
  · intro i h1 h2
    rw [List.length_map, List.length_range] at h1
    rw [List.getElem_map, List.getElem_range, List.getElem_take, List.getElem_drop]
    exact List.getD_eq_getElem ch 0 (by omega)

/-- C4: `extractRegion` converts the region bounds to frame indices by
`floor(seconds × sampleRate)`, returns `null` when
`endSample − startSample ≤ 0`, and otherwise returns a new buffer of exactly
that length, with the original channel count and sample rate, whose channels
copy the samples `[startSample, endSample)` verbatim. -/
theorem extractRegion_spec (buf : DecodedBuffer) (r : Region)
    (hwf : buf.WF)
    (hs : 0 ≤ startSampleOf buf r)
    (he : endSampleOf buf r ≤ (buf.length : Int)) :
    (endSampleOf buf r - startSampleOf buf r ≤ 0 → extractRegion buf r = none) ∧
    (0 < endSampleOf buf r - startSampleOf buf r →
      ∃ out : DecodedBuffer, extractRegion buf r = some out ∧
        out.sampleRate = buf.sampleRate ∧
        out.channels.length = buf.channels.length ∧
        (out.length : Int) = endSampleOf buf r - startSampleOf buf r ∧
        out.channels = buf.channels.map
          (fun ch => (ch.drop (startSampleOf buf r).toNat).take
            (endSampleOf buf r - startSampleOf buf r).toNat) ∧
        ∀ ch ∈ out.channels, ch.length = out.length) := by
  constructor
  · intro hle
    simp only [extractRegion]
    rw [if_pos hle]
  · intro hpos
    have hres : extractRegion buf r = some
        { sampleRate := buf.sampleRate
          length := (endSampleOf buf r - startSampleOf buf r).toNat
          channels := buf.channels.map fun ch =>
            (List.range (endSampleOf buf r - startSampleOf buf r).toNat).map
              fun j => ch.getD ((startSampleOf buf r).toNat + j) 0 } := by
      simp only [extractRegion]
      rw [if_neg (not_le.mpr hpos)]
    refine ⟨_, hres, rfl, List.length_map _ _,
      Int.toNat_of_nonneg (le_of_lt hpos), ?_, ?_⟩
    · show buf.channels.map _ = buf.channels.map _
      apply List.map_congr_left
      intro ch hch
      apply range_map_getD_eq
      have hlen := hwf ch hch
      omega
    · intro ch hch
      obtain ⟨ch0, hch0, hmap⟩ := List.mem_map.mp hch
      rw [← hmap, List.length_map, List.length_range]

/-- C3: `rippleDeleteSelection` is a no-op when `cutLength ≤ 0`; clears the
buffer entirely when `cutLength ≥ frameCount`; and otherwise produces a
buffer of length `frameCount − cutLength` whose channels are the
concatenation of samples `[0, startSample)` and `[endSample, frameCount)`,
with sample rate and channel count preserved. -/
theorem rippleDelete_spec (buf : DecodedBuffer) (r : Region)
    (hwf : buf.WF)
    (hs : 0 ≤ startSampleOf buf r)
    (he : endSampleOf buf r ≤ (buf.length : Int)) :
    (endSampleOf buf r - startSampleOf buf r ≤ 0 →
      rippleDeleteSelection buf r = RippleResult.noop) ∧
    (0 < endSampleOf buf r - startSampleOf buf r →
      (buf.length : Int) ≤ endSampleOf buf r - startSampleOf buf r →
      rippleDeleteSelection buf r = RippleResult.cleared) ∧
    (0 < endSampleOf buf r - startSampleOf buf r →
      endSampleOf buf r - startSampleOf buf r < (buf.length : Int) →
      ∃ out : DecodedBuffer, rippleDeleteSelection buf r = RippleResult.edited out ∧
        out.sampleRate = buf.sampleRate ∧
        out.channels.length = buf.channels.length ∧
        (out.length : Int) =
          (buf.length : Int) - (endSampleOf buf r - startSampleOf buf r) ∧
        out.channels = buf.channels.map
          (fun ch => ch.take (startSampleOf buf r).toNat ++
            ch.drop (endSampleOf buf r).toNat) ∧
        ∀ ch ∈ out.channels, ch.length = out.length) := by
  refine ⟨?_, ?_, ?_⟩
  · intro hle
    simp only [rippleDeleteSelection]
    rw [if_pos hle]
  · intro hpos hge
    simp only [rippleDeleteSelection]
    rw [if_neg (not_le.mpr hpos), if_pos hge]
  · intro hpos hlt
    have hres : rippleDeleteSelection buf r = RippleResult.edited
        { sampleRate := buf.sampleRate
          length := buf.length - (endSampleOf buf r - startSampleOf buf r).toNat
          channels := buf.channels.map fun ch =>
            ch.take (startSampleOf buf r).toNat ++
              ch.drop (endSampleOf buf r).toNat } := by
      simp only [rippleDeleteSelection]
      rw [if_neg (not_le.mpr hpos), if_neg (not_le.mpr hlt)]
    refine ⟨_, hres, rfl, List.length_map _ _, ?_, rfl, ?_⟩
    · show ((buf.length - (endSampleOf buf r - startSampleOf buf r).toNat : Nat) : Int) = _
      omega
    · intro ch hch
      obtain ⟨ch0, hch0, hmap⟩ := List.mem_map.mp hch
      have hlen := hwf ch0 hch0
      rw [← hmap, List.length_append, List.length_take, List.length_drop]
      show min (startSampleOf buf r).toNat ch0.length + _ =
        buf.length - (endSampleOf buf r - startSampleOf buf r).toNat
      omega

/-- The 5-frame, 1 Hz mono buffer `[a,b,c,d,e]` of the splice example,
with concrete samples `a..e = 10..50`. -/
def buf5 : DecodedBuffer :=
  { sampleRate := 1, length := 5, channels := [[10, 20, 30, 40, 50]] }

/-- The region `[1s, 3s)`, mapping to frame indices `[1, 3)` of `buf5`. -/
def reg13 : Region := { start := 1, «end» := 3 }

/-- Closed witness for C3: cutting indices `[1,3)` out of `[a,b,c,d,e]`
leaves `[a,d,e]` (here `[10,40,50]`), 3 frames long. -/
theorem rippleDelete_spec_witness :
    buf5.WF ∧ (0 : Int) ≤ startSampleOf buf5 reg13 ∧
    endSampleOf buf5 reg13 ≤ (buf5.length : Int) ∧
    ∃ out : DecodedBuffer,
      rippleDeleteSelection buf5 reg13 = RippleResult.edited out ∧
      out.channels = [[10, 40, 50]] ∧ out.length = 3 := by
  have hwf : buf5.WF := by norm_num [DecodedBuffer.WF, buf5]
  have hs1 : startSampleOf buf5 reg13 = 1 := by
    norm_num [startSampleOf, buf5, reg13]
  have he3 : endSampleOf buf5 reg13 = 3 := by
    norm_num [endSampleOf, buf5, reg13]
  have h := (rippleDelete_spec buf5 reg13 hwf (by rw [hs1]; norm_num)
    (by rw [he3]; norm_num [buf5])).2.2
    (by rw [hs1, he3]; norm_num) (by rw [hs1, he3]; norm_num [buf5])
  obtain ⟨out, h1, h2, h3, h4, h5, h6⟩ := h
  refine ⟨hwf, by rw [hs1]; norm_num, by rw [he3]; norm_num [buf5], out, h1, ?_, ?_⟩
  · rw [h5, hs1, he3]
    rfl
  · have hcast : (out.length : Int) = 3 := by
      rw [h4, hs1, he3]
      norm_num [buf5]
    exact_mod_cast hcast

/-- Closed witness for C4: extracting `[1,3)` from `buf5` yields the
2-frame buffer `[b,c]` (here `[20,30]`), rate and channel count kept. -/
theorem extractRegion_spec_witness :
    buf5.WF ∧ (0 : Int) < endSampleOf buf5 reg13 - startSampleOf buf5 reg13 ∧
    ∃ out : DecodedBuffer, extractRegion buf5 reg13 = some out ∧
      out.sampleRate = 1 ∧ out.length = 2 ∧ out.channels = [[20, 30]] := by
  have hwf : buf5.WF := by norm_num [DecodedBuffer.WF, buf5]
  have hs1 : startSampleOf buf5 reg13 = 1 := by
    norm_num [startSampleOf, buf5, reg13]
  have he3 : endSampleOf buf5 reg13 = 3 := by
    norm_num [endSampleOf, buf5, reg13]
  have hpos : (0 : Int) < endSampleOf buf5 reg13 - startSampleOf buf5 reg13 := by
    rw [hs1, he3]
    norm_num
  have h := (extractRegion_spec buf5 reg13 hwf (by rw [hs1]; norm_num)
    (by rw [he3]; norm_num [buf5])).2 hpos
  obtain ⟨out, h1, h2, h3, h4, h5, h6⟩ := h
  refine ⟨hwf, hpos, out, h1, h2, ?_, ?_⟩
  · have hcast : (out.length : Int) = 2 := by
      rw [h4, hs1, he3]
      norm_num
    exact_mod_cast hcast
  · rw [h5, hs1, he3]
    rfl

/-! WAV serialization (`bufferToWave`, lines 463-517). -/

/-- Little-endian bytes written by `DataView.setUint16`. -/
def u16bytes (n : Nat) : List Nat := [n % 256, n / 256 % 256]

/-- Little-endian bytes written by `DataView.setUint32`. -/
def u32bytes (n : Nat) : List Nat :=
  [n % 256, n / 256 % 256, n / 2 ^ 16 % 256, n / 2 ^ 24 % 256]

/-- Little-endian two's-complement bytes written by `DataView.setInt16`. -/
def int16bytes (v : Int) : List Nat :=
  [(v.emod 65536).toNat % 256, (v.emod 65536).toNat / 256]

/-- `Math.max(-1, Math.min(1, sample))` — the per-sample clamp. -/
def clampSample (s : ℚ) : ℚ := max (-1) (min 1 s)

/-- Truncation toward zero: the conversion ECMAScript's `ToIntegerOrInfinity`
(inside `DataView.setInt16`) applies to a non-integral value. -/
def ratTrunc (q : ℚ) : Int := if q < 0 then ⌈q⌉ else ⌊q⌋

/-- The per-sample quantization of `bufferToWave`: after clamping,
`sample < 0 ? sample * 0x8000 : sample * 0x7fff`, truncated toward zero by
`setInt16`. -/
def quantizeSample (s : ℚ) : Int :=
  let c := clampSample s
  if c < 0 then ratTrunc (c * 32768) else ratTrunc (c * 32767)

/-- `bufferToWave(abuffer, len)`: the 44-byte RIFF/WAVE header followed by
the frame-major, channel-interleaved 16-bit samples.  Each `setUint16` /
`setUint32` / `setInt16` call becomes its little-endian byte list; the
`while (pos < length)` loop walks `len` frames of `numOfChan` samples. -/
def bufferToWave (abuffer : DecodedBuffer) (len : Nat) : List Nat :=
  let numOfChan := abuffer.channels.length
  let length := len * numOfChan * 2 + 44
  let header :=
    u32bytes 0x46464952 ++ u32bytes (length - 8) ++ u32bytes 0x45564157 ++
    u32bytes 0x20746d66 ++ u32bytes 16 ++ u16bytes 1 ++ u16bytes numOfChan ++
    u32bytes abuffer.sampleRate ++ u32bytes (abuffer.sampleRate * 2 * numOfChan) ++
    u16bytes (numOfChan * 2) ++ u16bytes 16 ++
    u32bytes 0x61746164 ++ u32bytes (length - 40 - 4)
  let data := (List.range len).flatMap fun off =>
    (List.range numOfChan).flatMap fun i =>
      int16bytes (quantizeSample ((abuffer.channels.getD i []).getD off 0))
  header ++ data

/-- Byte values of an ASCII tag, for the spec-side header description. -/
def asciiBytes (s : String) : List Nat := s.data.map Char.toNat

/-- The §6 WAV header layout, written from the spec's byte table:
`"RIFF"`, file length − 8, `"WAVE"`, `"fmt "`, 16, PCM = 1, channel count,
sample rate, byte rate, block align, 16 bits per sample, `"data"`,
data chunk length. -/
def headerSpec (sampleRate channels frames : Nat) : List Nat :=
  asciiBytes "RIFF" ++ u32bytes (frames * channels * 2 + 44 - 8) ++
  asciiBytes "WAVE" ++ asciiBytes "fmt " ++ u32bytes 16 ++ u16bytes 1 ++
  u16bytes channels ++ u32bytes sampleRate ++
  u32bytes (sampleRate * 2 * channels) ++ u16bytes (channels * 2) ++
  u16bytes 16 ++ asciiBytes "data" ++ u32bytes (frames * channels * 2)

/-- The encoder's header chain equals the spec-side layout. -/
theorem header_eq_headerSpec (sampleRate C len : Nat) :
    u32bytes 0x46464952 ++ u32bytes (len * C * 2 + 44 - 8) ++ u32bytes 0x45564157 ++
    u32bytes 0x20746d66 ++ u32bytes 16 ++ u16bytes 1 ++ u16bytes C ++
    u32bytes sampleRate ++ u32bytes (sampleRate * 2 * C) ++
    u16bytes (C * 2) ++ u16bytes 16 ++
    u32bytes 0x61746164 ++ u32bytes (len * C * 2 + 44 - 40 - 4) =
    headerSpec sampleRate C len := by
  have h1 : len * C * 2 + 44 - 40 - 4 = len * C * 2 := by omega
  have hRIFF : u32bytes 0x46464952 = asciiBytes "RIFF" := by decide
  have hWAVE : u32bytes 0x45564157 = asciiBytes "WAVE" := by decide
  have hfmt : u32bytes 0x20746d66 = asciiBytes "fmt " := by decide
  have hdata : u32bytes 0x61746164 = asciiBytes "data" := by decide
  rw [headerSpec, h1, hRIFF, hWAVE, hfmt, hdata]

/-- The spec-side header is exactly 44 bytes long. -/
theorem headerSpec_length (sampleRate C len : Nat) :
    (headerSpec sampleRate C len).length = 44 := by
  have hR : (asciiBytes "RIFF").length = 4 := by decide
  have hW : (asciiBytes "WAVE").length = 4 := by decide
  have hf : (asciiBytes "fmt ").length = 4 := by decide
  have hd : (asciiBytes "data").length = 4 := by decide
  simp [headerSpec, u32bytes, u16bytes, hR, hW, hf, hd]

/-- Length of a `flatMap` over `range` with constant-size blocks. -/
theorem length_flatMap_const {β : Type} (f : Nat → List β) (m : Nat)
    (h : ∀ k, (f k).length = m) (n : Nat) :
    ((List.range n).flatMap f).length = n * m := by
  induction n with
  | zero => simp
  | succ n ih =>
    rw [List.range_succ, List.flatMap_append, List.length_append, ih]
    simp [h n, Nat.succ_mul]

/-- C5: for a buffer with `C > 0` channels, `bufferToWave b len` produces
exactly `len × C × 2 + 44` bytes; the first 44 bytes are the §6 header
layout, and the rest is the frame-major channel-interleaved 16-bit data.
(The hypothesis `0 < C` mirrors the browser invariant — an `AudioBuffer`
always has at least one channel; with zero channels the source's
`while (pos < length)` loop would never terminate.) -/
theorem bufferToWave_layout (b : DecodedBuffer) (len : Nat)
    (_hc : 0 < b.channels.length) :
    (bufferToWave b len).length = len * b.channels.length * 2 + 44 ∧
    (bufferToWave b len).take 44 = headerSpec b.sampleRate b.channels.length len ∧
    (bufferToWave b len).drop 44 =
      (List.range len).flatMap (fun off =>
        (List.range b.channels.length).flatMap fun i =>
          int16bytes (quantizeSample ((b.channels.getD i []).getD off 0))) := by
  have hsplit : bufferToWave b len =
      headerSpec b.sampleRate b.channels.length len ++
      (List.range len).flatMap (fun off =>
        (List.range b.channels.length).flatMap fun i =>
          int16bytes (quantizeSample ((b.channels.getD i []).getD off 0))) := by
    simp only [bufferToWave]
    rw [header_eq_headerSpec]
  have hdatalen : ((List.range len).flatMap (fun off =>
      (List.range b.channels.length).flatMap fun i =>
        int16bytes (quantizeSample ((b.channels.getD i []).getD off 0)))).length =
      len * (b.channels.length * 2) := by
    apply length_flatMap_const
    intro off
    apply length_flatMap_const
    intro i
    rfl
  refine ⟨?_, ?_, ?_⟩
  · rw [hsplit, List.length_append, headerSpec_length, hdatalen]
    rw [Nat.mul_assoc]
    omega
  · rw [hsplit]
    have h44 : (44 : Nat) = (headerSpec b.sampleRate b.channels.length len).length :=
      (headerSpec_length _ _ _).symm
    rw [h44, List.take_left]
  · rw [hsplit]
    have h44 : (44 : Nat) = (headerSpec b.sampleRate b.channels.length len).length :=
      (headerSpec_length _ _ _).symm
    rw [h44, List.drop_left]

/-- The spec's §6 example buffer: 2 channels, 8000 Hz, 10 frames. -/
def wavBuf : DecodedBuffer :=
  { sampleRate := 8000, length := 10,
    channels := [[0, 0, 0, 0, 0, 0, 0, 0, 0, 0],
                 [1, 1, 1, 1, 1, 1, 1, 1, 1, 1]] }

/-- Closed witness for C5 at the §6 example: 2 channels, 8000 Hz, 10 frames
encode to `10×2×2+44 = 84` bytes whose header matches the layout. -/
theorem bufferToWave_layout_witness :
    0 < wavBuf.channels.length ∧
    (bufferToWave wavBuf 10).length = 84 ∧
    (bufferToWave wavBuf 10).take 44 = headerSpec 8000 2 10 := by
  have h := bufferToWave_layout wavBuf 10 (by decide)
  exact ⟨by decide, h.1, h.2.1⟩

/-- Modelled from the spec: the repository contains no WAV decoder; the
spec's round-trip sentence reads a 16-bit PCM value back as a float by the
inverse of the §4.3 asymmetric scaling — a negative value divides by
`32768`, a non-negative one by `32767`. -/
def decodeSample (v : Int) : ℚ :=
  if v < 0 then (v : ℚ) / 32768 else (v : ℚ) / 32767

/-- Helper: the asymmetric quantizer on a value already clamped to
`[-1, 1]`: it fits in a signed 16-bit word and decoding recovers the value
within one quantization step. -/
theorem quantize_spec (c : ℚ) (hc1 : -1 ≤ c) (hc2 : c ≤ 1) :
    -32768 ≤ (if c < 0 then ratTrunc (c * 32768) else ratTrunc (c * 32767)) ∧
    (if c < 0 then ratTrunc (c * 32768) else ratTrunc (c * 32767)) ≤ 32767 ∧
    |decodeSample (if c < 0 then ratTrunc (c * 32768) else ratTrunc (c * 32767)) -
      c| ≤ 1 / 32767 := by
  have h3 : (1 : ℚ) / 32768 ≤ 1 / 32767 := by norm_num
  by_cases hneg : c < 0
  · rw [if_pos hneg]
    have hx : c * 32768 < 0 := mul_neg_of_neg_of_pos hneg (by norm_num)
    have htr : ratTrunc (c * 32768) = ⌈c * 32768⌉ := by
      rw [ratTrunc, if_pos hx]
    have h1 : c * 32768 ≤ ((⌈c * 32768⌉ : Int) : ℚ) := Int.le_ceil _
    have h2 : ((⌈c * 32768⌉ : Int) : ℚ) < c * 32768 + 1 := Int.ceil_lt_add_one _
    have hhigh : ⌈c * 32768⌉ ≤ 0 := Int.ceil_le.mpr (by push_cast; linarith)
    have hlow : -32768 ≤ ⌈c * 32768⌉ := by
      have hcast : ((-32768 : Int) : ℚ) ≤ c * 32768 := by push_cast; nlinarith
      calc (-32768 : Int) = ⌈((-32768 : Int) : ℚ)⌉ := (Int.ceil_intCast _).symm
        _ ≤ ⌈c * 32768⌉ := Int.ceil_le_ceil hcast
    refine ⟨by rw [htr]; exact hlow, by rw [htr]; omega, ?_⟩
    rw [htr]
    by_cases hq0 : ⌈c * 32768⌉ < 0
    · rw [decodeSample, if_pos hq0, abs_le]
      constructor
      · have hle : c ≤ ((⌈c * 32768⌉ : Int) : ℚ) / 32768 := by
          rw [le_div_iff₀ (by norm_num : (0 : ℚ) < 32768)]
          linarith
        have : -(1 : ℚ) / 32767 ≤ 0 := by norm_num
        linarith
      · have hlt : ((⌈c * 32768⌉ : Int) : ℚ) / 32768 ≤ c + 1 / 32768 := by
          rw [div_le_iff₀ (by norm_num : (0 : ℚ) < 32768)]
          ring_nf
          ring_nf at h2
          linarith
        linarith
    · have hq0e : ⌈c * 32768⌉ = 0 := le_antisymm hhigh (not_lt.mp hq0)
      rw [decodeSample, if_neg hq0, hq0e]
      have hgt : -(1 : ℚ) / 32768 < c := by
        rw [div_lt_iff₀ (by norm_num : (0 : ℚ) < 32768)]
        rw [hq0e] at h2
        push_cast at h2
        linarith
      rw [abs_le]
      constructor
      · push_cast
        have : (0 : ℚ) / 32767 = 0 := by norm_num
        rw [this]
        have : -(1 : ℚ) / 32767 ≤ 0 - c := by linarith
        linarith [this]
      · push_cast
        have h0 : (0 : ℚ) / 32767 = 0 := by norm_num
        rw [h0]
        linarith
  · rw [if_neg hneg]
    have hc0 : 0 ≤ c := not_lt.mp hneg
    have hx0 : 0 ≤ c * 32767 := mul_nonneg hc0 (by norm_num)
    have htr : ratTrunc (c * 32767) = ⌊c * 32767⌋ := by
      rw [ratTrunc, if_neg (not_lt.mpr hx0)]
    have h1 : ((⌊c * 32767⌋ : Int) : ℚ) ≤ c * 32767 := Int.floor_le _
    have h2 : c * 32767 - 1 < ((⌊c * 32767⌋ : Int) : ℚ) := Int.sub_one_lt_floor _
    have hfl0 : 0 ≤ ⌊c * 32767⌋ := Int.floor_nonneg.mpr hx0
    have hhigh : ⌊c * 32767⌋ ≤ 32767 := by
      have hle : c * 32767 ≤ ((32767 : Int) : ℚ) := by push_cast; nlinarith
      calc ⌊c * 32767⌋ ≤ ⌊((32767 : Int) : ℚ)⌋ := Int.floor_le_floor hle
        _ = 32767 := Int.floor_intCast _
    refine ⟨by rw [htr]; omega, by rw [htr]; exact hhigh, ?_⟩
    rw [htr, decodeSample, if_neg (not_lt.mpr hfl0), abs_le]
    constructor
    · have hge : c - 1 / 32767 ≤ ((⌊c * 32767⌋ : Int) : ℚ) / 32767 := by
        rw [le_div_iff₀ (by norm_num : (0 : ℚ) < 32767)]
        ring_nf
        ring_nf at h2
        linarith
      linarith
    · have hle : ((⌊c * 32767⌋ : Int) : ℚ) / 32767 ≤ c := by
        rw [div_le_iff₀ (by norm_num : (0 : ℚ) < 32767)]
        linarith
      have : (0 : ℚ) ≤ 1 / 32767 := by norm_num
      linarith

/-- C6: `bufferToWave` clamps every sample to `[-1, 1]` and quantizes it
asymmetrically — a negative clamped sample scales by `32768`, a non-negative
one by `32767`, truncating toward zero — so the value fits in a signed
16-bit word and decoding it recovers the clamped sample within one
quantization step (`±1/32767`). -/
theorem quantize_roundtrip (s : ℚ) :
    -32768 ≤ quantizeSample s ∧ quantizeSample s ≤ 32767 ∧
    (clampSample s < 0 →
      quantizeSample s = ratTrunc (clampSample s * 32768)) ∧
    (0 ≤ clampSample s →
      quantizeSample s = ratTrunc (clampSample s * 32767)) ∧
    |decodeSample (quantizeSample s) - clampSample s| ≤ 1 / 32767 := by
  have hdef : quantizeSample s =
      if clampSample s < 0 then ratTrunc (clampSample s * 32768)
      else ratTrunc (clampSample s * 32767) := rfl
  have h := quantize_spec (clampSample s) (le_max_left _ _)
    (max_le (by norm_num) (min_le_left _ _))
  refine ⟨?_, ?_, ?_, ?_, ?_⟩
  · rw [hdef]; exact h.1
  · rw [hdef]; exact h.2.1
  · intro hcneg; rw [hdef, if_pos hcneg]
  · intro hcpos; rw [hdef, if_neg (not_lt.mpr hcpos)]
  · rw [hdef]; exact h.2.2

/-- Closed witness for C6 at the over-range sample `3`: it clamps to `1`,
quantizes to `32767`, and decodes back within one step. -/
theorem quantize_roundtrip_witness :
    0 ≤ clampSample 3 ∧
    quantizeSample 3 = ratTrunc (clampSample 3 * 32767) ∧
    quantizeSample 3 = 32767 ∧
    |decodeSample (quantizeSample 3) - clampSample 3| ≤ 1 / 32767 := by
  have h := quantize_roundtrip 3
  have hcl : clampSample 3 = 1 := by
    rw [clampSample, min_eq_left (by norm_num : (1 : ℚ) ≤ 3),
      max_eq_right (by norm_num : (-1 : ℚ) ≤ 1)]
  have hpos : (0 : ℚ) ≤ clampSample 3 := by rw [hcl]; norm_num
  refine ⟨hpos, h.2.2.2.1 hpos, ?_, h.2.2.2.2⟩
  rw [h.2.2.2.1 hpos, hcl, ratTrunc, if_neg (by norm_num : ¬(1 : ℚ) * 32767 < 0)]
  norm_num

end GoCart
